import Mathlib

/-!
Shallow embedding of the `paddleocr` Go package (supervisor for the
PaddleOCR-json worker process) and proofs about it.

The embedding follows the second (latest) copy of the module in the
repository.  Go machine integers are modelled as `Int`/`Nat`; JSON numbers
as exact rationals (`ℚ`) — the `float64` intermediate of `encoding/json`
is not remodelled, which only matters beyond 2^53 precision; bytes as
`Nat`; Go strings as Lean `String`.  Library functions used by the code
(`strings.TrimSpace`, `fmt.Sprintf("%v", ..)`, `encoding/json`,
`bytes.Contains`, base64) are modelled explicitly below, each next to a
comment stating the Go behaviour it transcribes.
-/

namespace Paddleocr

/-! ### Go library models: whitespace, TrimSpace, decimal formatting -/

/-- Model of Go `unicode.IsSpace`: the White_Space code points used by
`strings.TrimSpace`. -/
def goIsSpace (c : Char) : Bool :=
  c.toNat = 9 || c.toNat = 10 || c.toNat = 11 || c.toNat = 12 || c.toNat = 13 ||
  c.toNat = 32 || c.toNat = 0x85 || c.toNat = 0xA0 || c.toNat = 0x1680 ||
  (0x2000 ≤ c.toNat && c.toNat ≤ 0x200A) || c.toNat = 0x2028 || c.toNat = 0x2029 ||
  c.toNat = 0x202F || c.toNat = 0x205F || c.toNat = 0x3000

/-- Model of Go `strings.TrimSpace` on a character list: drop leading and
trailing White_Space. -/
def goTrimSpaceL (l : List Char) : List Char :=
  ((l.dropWhile goIsSpace).reverse.dropWhile goIsSpace).reverse

/-- Decimal digit character for `n % 10`. -/
def decDigit (n : Nat) : Char :=
  match n with
  | 0 => '0' | 1 => '1' | 2 => '2' | 3 => '3' | 4 => '4'
  | 5 => '5' | 6 => '6' | 7 => '7' | 8 => '8' | _ => '9'

/-- Decimal digits of a positive natural, most significant first,
prepended to `acc`. -/
def natDecAux : Nat → List Char → List Char
  | 0, acc => acc
  | n + 1, acc => natDecAux ((n + 1) / 10) (decDigit ((n + 1) % 10) :: acc)
decreasing_by exact Nat.div_lt_self (Nat.succ_pos n) (by omega)

/-- Decimal rendering of a natural number (model of Go `strconv` output). -/
def natDec (n : Nat) : List Char :=
  if n = 0 then ['0'] else natDecAux n []

/-- Decimal rendering of an `Int`, as Go `fmt` prints an integer. -/
def intDec (i : Int) : List Char :=
  if i < 0 then '-' :: natDec i.natAbs else natDec i.toNat

/-! ### OcrArgs and CmdString (source: `OcrArgs.CmdString`) -/

/-- The `OcrArgs` configuration struct.  Go's `*bool`/`*int32` fields are
`Option`s (nil pointer = `none` = the field's zero value, skipped by the
`IsZero` test in `CmdString`); `ConfigPath` is a plain string whose zero
value is `""`. -/
structure OcrArgs where
  Cls : Option Bool
  EnableMkldnn : Option Bool
  LimitSideLen : Option Int
  UseAngleCls : Option Bool
  ConfigPath : String

/-- Rendering of one present boolean flag: Go prints `1` for true and `0`
for false. -/
def boolFlag (tag : List Char) (b : Bool) : List Char :=
  tag ++ ['='] ++ (if b then ['1'] else ['0'])

/-- The `name=value` renderings of exactly the non-zero fields of an
`OcrArgs`, in struct declaration order, transcribing the reflection loop
of `CmdString` field by field. -/
def OcrArgs.fieldsRendered (o : OcrArgs) : List (List Char) :=
  (match o.Cls with
   | none => []
   | some b => [boolFlag "cls".data b]) ++
  (match o.EnableMkldnn with
   | none => []
   | some b => [boolFlag "enable_mkldnn".data b]) ++
  (match o.LimitSideLen with
   | none => []
   | some n => ["limit_side_len=".data ++ intDec n]) ++
  (match o.UseAngleCls with
   | none => []
   | some b => [boolFlag "use_angle_cls".data b]) ++
  (if o.ConfigPath = "" then [] else ["config_path=".data ++ o.ConfigPath.data])

/-- Transcription of `OcrArgs.CmdString`: each non-zero field appends
`name=value` followed by one space to `s`, and the result is passed
through `strings.TrimSpace`. -/
def OcrArgs.CmdString (o : OcrArgs) : String :=
  ⟨goTrimSpaceL (((o.fieldsRendered).map (· ++ [' '])).flatten)⟩

/-! ### Generic JSON values (model of `encoding/json` decode into `map[string]any`) -/

/-- A decoded generic JSON value, as Go's `json.Unmarshal` produces into
`any`: null becomes a nil interface, numbers become `float64` (modelled as
an exact rational), objects become `map[string]any` (modelled as the
association list of the line's key/value pairs; a duplicated key keeps its
last value, see `jlookup`). -/
inductive JVal where
  | jnull : JVal
  | jbool : Bool → JVal
  | jnum : ℚ → JVal
  | jstr : String → JVal
  | jarr : List JVal → JVal
  | jobj : List (String × JVal) → JVal

/-- Go map indexing `resp[k]` for the decoded object: on duplicate keys
`json.Unmarshal` lets the later value win, so the last binding is
returned. -/
def jlookup (kvs : List (String × JVal)) (k : String) : Option JVal :=
  (kvs.reverse.find? (fun kv => kv.1 = k)).map (fun kv => kv.2)

/-! ### Model of `fmt.Sprintf("%v", x)` for decoded JSON values -/

/-- Model of Go `%v` formatting of a `float64`: integral values print with
no decimal point.  Non-integral values are approximated by
`num/den` rendering; no claim evaluates this branch. -/
def goFmtNum (q : ℚ) : List Char :=
  if q.den = 1 then intDec q.num
  else intDec q.num ++ ['/'] ++ natDec q.den

/-- Strict lexicographic order on character lists by code point; UTF-8
encoding preserves code-point order, so this is Go's byte-wise string
`<`. -/
def charListLt : List Char → List Char → Bool
  | [], [] => false
  | [], _ :: _ => true
  | _ :: _, [] => false
  | a :: as, b :: bs =>
    if a.toNat < b.toNat then true
    else if b.toNat < a.toNat then false
    else charListLt as bs

/-- Go's `a <= b` on strings (byte-wise). -/
def strLe (a b : String) : Bool := ! charListLt b.data a.data

/-- Insert a string into a `strLe`-sorted list of strings. -/
def insertStr (s : String) : List String → List String
  | [] => [s]
  | x :: xs => if strLe s x then s :: x :: xs else x :: insertStr s xs

/-- Insertion sort on strings (model of the sorted map-key iteration Go
printing and marshalling use). -/
def sortStr : List String → List String
  | [] => []
  | x :: xs => insertStr x (sortStr xs)

/-- Space-separated concatenation of rendered parts. -/
def joinSpaceStr : List String → String
  | [] => ""
  | [s] => s
  | s :: t :: rest => s ++ " " ++ joinSpaceStr (t :: rest)

mutual

/-- Model of `fmt.Sprintf("%v", x)` on a decoded JSON value: Go prints a
nil interface as `<nil>`, strings verbatim, booleans as `true`/`false`,
slices bracketed and space-separated, and maps as `map[k:v ...]` with keys
in sorted order. -/
def goSprintVal : JVal → String
  | .jnull => "<nil>"
  | .jbool b => if b then "true" else "false"
  | .jnum q => ⟨goFmtNum q⟩
  | .jstr s => s
  | .jarr xs => "[" ++ joinSpaceStr (goSprintList xs) ++ "]"
  | .jobj kvs => "map[" ++ joinSpaceStr (sortStr (goSprintPairs kvs)) ++ "]"

/-- `%v` renderings of the elements of a decoded slice. -/
def goSprintList : List JVal → List String
  | [] => []
  | x :: xs => goSprintVal x :: goSprintList xs

/-- `key:value` renderings of the entries of a decoded map. -/
def goSprintPairs : List (String × JVal) → List String
  | [] => []
  | (k, v) :: xs => (k ++ ":" ++ goSprintVal v) :: goSprintPairs xs

end

/-- Model of `fmt.Sprintf("%v", resp[k])` where an absent key yields the
nil interface. -/
def goSprintAny : Option JVal → String
  | none => "<nil>"
  | some v => goSprintVal v

/-! ### ParseResult (source: `ParseResult`, second copy lines 779–824) -/

/-- The per-item `Data` struct: `box` (polygon), `score`, `text`.  The Go
`float32` score is modelled as the exact JSON rational. -/
structure OcrData where
  Rect : List (List Int)
  Score : ℚ
  Text : String
deriving DecidableEq, Repr

/-- The zero value of `Data`. -/
def OcrData.zero : OcrData := ⟨[], 0, ""⟩

/-- The `Result` struct returned by `ParseResult`. -/
structure OcrResult where
  Code : Int
  Msg : String
  Data : List OcrData
deriving DecidableEq, Repr

/-- The zero value `Result{}`. -/
def OcrResult.zero : OcrResult := ⟨0, "", []⟩

/-- Outcome of running `ParseResult`: a normal return of the
`(Result, error)` pair, or a runtime panic. -/
inductive PRes where
  | ret : OcrResult → Option String → PRes
  | panicked : String → PRes
deriving DecidableEq, Repr

/-- Whether the call returned (did not panic). -/
def PRes.isRet : PRes → Bool
  | .ret _ _ => true
  | .panicked _ => false

/-- Go conversion `int(f)` for a `float64`: truncation toward zero
(`Int.div` is T-division). -/
def goTruncInt (q : ℚ) : Int := Int.tdiv q.num q.den

/-- ASCII lowercasing of one character. -/
def lowerChar (c : Char) : Char :=
  if 65 ≤ c.toNat ∧ c.toNat ≤ 90 then Char.ofNat (c.toNat + 32) else c

/-- Case-insensitive struct-field key match used by `json.Unmarshal`
(model of the `strings.EqualFold` comparison; the struct tags here are
ASCII, so ASCII folding suffices). -/
def foldEq (a b : String) : Bool := a.data.map lowerChar = b.data.map lowerChar

/-- Model of `json.Unmarshal` of a re-marshalled generic number into a Go
`int`: only integral values within `int64` range parse; `null` leaves the
zero value. -/
def decJInt : JVal → Except String Int
  | .jnull => .ok 0
  | .jnum q =>
    if q.den = 1 ∧ q.num.natAbs < 2 ^ 63 then .ok q.num
    else .error "json: cannot unmarshal number into Go value of type int"
  | _ => .error "json: cannot unmarshal value into Go value of type int"

/-- Decode one row of the `box` field into `[]int`; `null` yields the nil
slice. -/
def decRow : JVal → Except String (List Int)
  | .jnull => .ok []
  | .jarr xs => xs.mapM decJInt
  | _ => .error "json: cannot unmarshal value into Go value of type []int"

/-- Deduplicate an association list keeping the last binding of each key,
as re-marshalling the decoded `map[string]any` does. -/
def dedupLast (kvs : List (String × JVal)) : List (String × JVal) :=
  kvs.foldl (fun acc kv => acc.filter (fun kv2 => kv2.1 ≠ kv.1) ++ [kv]) []

/-- Insert a binding into a key-sorted association list. -/
def insertByKey (kv : String × JVal) : List (String × JVal) → List (String × JVal)
  | [] => [kv]
  | x :: xs => if strLe kv.1 x.1 then kv :: x :: xs else x :: insertByKey kv xs

/-- Insertion sort of an association list by key: `json.Marshal` of a
`map[string]any` emits the keys in sorted order. -/
def sortByKey : List (String × JVal) → List (String × JVal)
  | [] => []
  | x :: xs => insertByKey x (sortByKey xs)

/-- One field assignment while unmarshalling an object into `Data`:
`json.Unmarshal` matches keys to the struct tags `box`/`score`/`text`
case-insensitively, ignores unknown keys, and treats a `null` value as a
no-op on the field. -/
def assignData (d : OcrData) (kv : String × JVal) : Except String OcrData :=
  if foldEq kv.1 "box" then
    match kv.2 with
    | .jnull => .ok d
    | .jarr xs => do
      let rows ← xs.mapM decRow
      .ok { d with Rect := rows }
    | _ => .error "json: cannot unmarshal value into Go value of type [][]int"
  else if foldEq kv.1 "score" then
    match kv.2 with
    | .jnull => .ok d
    | .jnum q => .ok { d with Score := q }
    | _ => .error "json: cannot unmarshal value into Go value of type float32"
  else if foldEq kv.1 "text" then
    match kv.2 with
    | .jnull => .ok d
    | .jstr s => .ok { d with Text := s }
    | _ => .error "json: cannot unmarshal value into Go value of type string"
  else .ok d

/-- Model of the per-element round trip in `ParseResult`'s loop:
`json.Marshal(v)` followed by `json.Unmarshal(str, &r)` for `r : Data`.
Marshalling a decoded `map[string]any` emits unique keys in sorted order,
so unmarshalling assigns fields in that order; a `null` element
unmarshals into the zero `Data` with no error; a non-object, non-null
element is a type error. -/
def decodeData : JVal → Except String OcrData
  | .jnull => .ok OcrData.zero
  | .jobj kvs =>
    (sortByKey (dedupLast kvs)).foldlM assignData OcrData.zero
  | _ => .error "json: cannot unmarshal value into Go value of type paddleocr.Data"

/-- Transcription of `ParseResult` on the decoded generic value of the
input line.  `json.Unmarshal` of the raw bytes into `map[string]any` is
modelled as the already-decoded `JVal`; a well-formed line that is not an
object fails that unmarshal, any JSON object yields `jobj`.  The branch
structure follows the source line by line; the type assertion
`resp["code"].(float64)` panics on a present, non-null, non-number
`code`. -/
def ParseResultV : JVal → PRes
  | .jobj kvs =>
    match jlookup kvs "code" with
    | none => .ret OcrResult.zero (some "no code in response")
    | some .jnull => .ret OcrResult.zero (some "no code in response")
    | some (.jnum c) =>
      if c ≠ 100 then
        .ret ⟨goTruncInt c, goSprintAny (jlookup kvs "data"), []⟩ none
      else
        match jlookup kvs "data" with
        | none => .ret OcrResult.zero (some "no data in response")
        | some .jnull => .ret OcrResult.zero (some "no data in response")
        | some (.jarr elems) =>
          match elems.mapM decodeData with
          | .ok ds => .ret ⟨100, "parse success", ds⟩ none
          | .error e => .ret ⟨100, "parse success", []⟩ (some e)
        | some _ => .ret ⟨100, "parse success", []⟩ (some "data is not array")
    | some _ => .panicked "interface conversion: interface is not float64"
  | _ => .ret OcrResult.zero (some "json: cannot unmarshal value into Go value of type map[string]interface")

/-! ### Request marshalling (source: `imageData`, `Ppocr.ocr`) -/

/-- The `imageData` request struct: both fields carry `json:",omitempty"`,
so a zero value (empty string, nil/empty byte slice) is omitted from the
marshalled object. -/
structure ImageData where
  Path : String
  ContentB64 : List Nat

/-- Hex digit used by `\u00XX` escapes (lowercase, as Go emits). -/
def hexDigit (n : Nat) : Char :=
  match n with
  | 0 => '0' | 1 => '1' | 2 => '2' | 3 => '3' | 4 => '4' | 5 => '5' | 6 => '6'
  | 7 => '7' | 8 => '8' | 9 => '9' | 10 => 'a' | 11 => 'b' | 12 => 'c'
  | 13 => 'd' | 14 => 'e' | _ => 'f'

/-- Model of `encoding/json` string escaping of one character: quote and
backslash are backslash-escaped, newline/carriage-return/tab use their
short escapes, other control characters and the HTML-sensitive `<`, `>`,
`&` become `\u00XX`; everything else is emitted verbatim. -/
def jsonEscapeChar (c : Char) : List Char :=
  if c = '"' then ['\\', '"']
  else if c = '\\' then ['\\', '\\']
  else if c = '\n' then ['\\', 'n']
  else if c = '\r' then ['\\', 'r']
  else if c = '\t' then ['\\', 't']
  else if c.toNat < 32 || c = '<' || c = '>' || c = '&' then
    ['\\', 'u', '0', '0', hexDigit (c.toNat / 16 % 16), hexDigit (c.toNat % 16)]
  else [c]

/-- Model of a marshalled JSON string literal: quotes around the escaped
characters. -/
def jsonQuote (s : String) : List Char :=
  '"' :: (s.data.map jsonEscapeChar).flatten ++ ['"']

/-- The standard base64 alphabet character for a 6-bit value. -/
def b64Char (n : Nat) : Char :=
  if n < 26 then Char.ofNat (65 + n)
  else if n < 52 then Char.ofNat (97 + (n - 26))
  else if n < 62 then Char.ofNat (48 + (n - 52))
  else if n = 62 then '+'
  else '/'

/-- Standard base64 encoding of a byte list (model of the implicit
`encoding/base64` step Go's `json.Marshal` applies to a `[]byte`
field). -/
def base64Enc : List Nat → List Char
  | [] => []
  | [a] =>
    [b64Char (a / 4 % 64), b64Char (a % 4 * 16), '=', '=']
  | [a, b] =>
    [b64Char (a / 4 % 64), b64Char (a % 4 * 16 + b / 16 % 16), b64Char (b % 16 * 4), '=']
  | a :: b :: c :: rest =>
    b64Char (a / 4 % 64) :: b64Char (a % 4 * 16 + b / 16 % 16) ::
      b64Char (b % 16 * 4 + c / 64 % 4) :: b64Char (c % 64) :: base64Enc rest

/-- The key/value pairs `json.Marshal` emits for an `imageData` value:
`image_path` when `Path` is non-zero, `image_base64` (base64 of the
bytes) when `ContentB64` is non-zero — each omitted when zero by
`omitempty`. -/
def marshalImageDataFields (d : ImageData) : List (String × List Char) :=
  (if d.Path = "" then [] else [("image_path", jsonQuote d.Path)]) ++
  (if d.ContentB64 = [] then [] else [("image_base64", jsonQuote ⟨base64Enc d.ContentB64⟩)])

/-- Rendering of the marshalled single-line JSON object from its field
list. -/
def renderObj (fields : List (String × List Char)) : List Char :=
  '\x7b' :: (",".data.intercalate
    (fields.map (fun kv => jsonQuote kv.1 ++ ':' :: kv.2))) ++ ['\x7d']

/-- The field list of the request `Ppocr.OcrFile` marshals: the struct is
`imageData{Path: imagePath}`. -/
def ocrFileFields (imagePath : String) : List (String × List Char) :=
  marshalImageDataFields ⟨imagePath, []⟩

/-- The field list of the request `Ppocr.Ocr` marshals: the struct is
`imageData{ContentB64: image}`. -/
def ocrRawFields (image : List Nat) : List (String × List Char) :=
  marshalImageDataFields ⟨"", image⟩

/-- The bytes `Ppocr.ocr` writes to the worker's stdin for a request
struct: the marshalled object in one write, then a single `"\n"` in a
second write. -/
def requestBytes (fields : List (String × List Char)) : List Char :=
  renderObj fields ++ ['\n']

/-! ### Byte streams and the two read loops (source: `initPpocr`, `Ppocr.ocr`)

A worker output stream is a list of chunks; each `Read(buf)` call delivers
as much of the front chunk as fits in `buf` (pipe semantics: at most one
chunk per call, short reads allowed), and a call after the last chunk
returns the stream's terminal error. -/

/-- Model of `bytes.Contains(hay, needle)`: whether `needle` occurs as a
contiguous subslice of `hay`. -/
def bytesContains (hay needle : List Nat) : Bool :=
  needle.isPrefixOf hay ||
    match hay with
    | [] => false
    | _ :: t => bytesContains t needle

/-- The ready-marker bytes `"OCR init completed."`. -/
def markerBytes : List Nat := "OCR init completed.".data.map Char.toNat

/-- Outcome of the handshake read loop in `initPpocr`. -/
inductive InitOutcome where
  | completed : List Nat → InitOutcome
  | tooLong : InitOutcome
  | readErr : List Nat → InitOutcome
deriving DecidableEq, Repr

/-- Transcription of the handshake loop of `initPpocr`: a fixed 4096-byte
buffer, `start` the count of accumulated bytes (`acc` is `buf[:start]`).
Each iteration reads into `buf[start:]` (at most `4096 - start` bytes of
the front chunk), fails with the read error when the stream is exhausted,
fails with `output too long` when `start` reaches the buffer length —
this check runs before the marker test — and completes when the
accumulated bytes contain the marker. -/
def initLoop : List (List Nat) → List Nat → InitOutcome
  | [], acc => .readErr acc
  | c :: rest, acc =>
    if 4096 ≤ (acc ++ c.take (4096 - acc.length)).length then .tooLong
    else if bytesContains (acc ++ c.take (4096 - acc.length)) markerBytes then
      .completed (acc ++ c.take (4096 - acc.length))
    else
      initLoop (if c.length ≤ 4096 - acc.length then rest else c.drop (4096 - acc.length) :: rest)
        (acc ++ c.take (4096 - acc.length))
termination_by chunks _ => (chunks.map List.length).sum + chunks.length
decreasing_by
  rename_i hlong _hcont
  simp only [List.length_append, List.length_take] at hlong
  simp only [List.map_cons, List.sum_cons, List.length_cons]
  split
  · omega
  · simp only [List.map_cons, List.sum_cons, List.length_cons, List.length_drop]
    omega

/-- Outcome of the response read loop in `Ppocr.ocr`. -/
inductive RecvOutcome where
  | done : List Nat → RecvOutcome
  | readErr : RecvOutcome
  | panicked : RecvOutcome
deriving DecidableEq, Repr

/-- Transcription of the receive loop of `Ppocr.ocr`: `content` starts at
10240 bytes capacity (`cap`), `acc` is `content[:start]`.  Each iteration
reads into `content[start:]`, surfaces a read error with no retry, grows
the buffer by appending 10240 zero bytes when `start` reaches the
capacity, and breaks when `content[start-1]` is a newline —
`content[start-1]` with `start = 0` is a runtime panic (index out of
range). -/
def recvLoop : List (List Nat) → List Nat → Nat → RecvOutcome
  | [], _, _ => .readErr
  | c :: rest, acc, cap =>
    match (acc ++ c.take (cap - acc.length)).getLast? with
    | none => .panicked
    | some b =>
      if b = 10 then .done (acc ++ c.take (cap - acc.length))
      else
        recvLoop
          (if c.length ≤ cap - acc.length then rest else c.drop (cap - acc.length) :: rest)
          (acc ++ c.take (cap - acc.length))
          (if cap ≤ (acc ++ c.take (cap - acc.length)).length then cap + 10240 else cap)
termination_by chunks acc cap =>
  2 * (chunks.map List.length).sum + chunks.length + (acc.length + 1 - cap)
decreasing_by
  simp only [List.map_cons, List.sum_cons, List.length_cons, List.length_append,
    List.length_take]
  split
  · split
    · omega
    · omega
  · simp only [List.map_cons, List.sum_cons, List.length_cons, List.length_drop]
    split
    · omega
    · omega

/-! ### File check and supervisor state machine
(source: `fileIsExist`, `NewPpocr`, `initPpocr`, `Close`, `close`,
`restartTimer`, `OcrFile`, `Ocr`) -/

/-- Resource events the supervisor can perform, recorded as traces. -/
inductive Ev where
  | chanCloseRestart
  | stdinClose
  | procKill
  | stdinPipe
  | stdoutPipe
  | procStart
  | stdinWrite : List Char → Ev
  | stdoutRead : Ev
deriving DecidableEq, Repr

/-- What `os.Stat` reports for a path. -/
structure FileInfo where
  isDir : Bool
deriving DecidableEq, Repr

/-- Transcription of `fileIsExist`: a `Stat` error returns
`os.IsExist(err)` — `false` for a not-exist (or any other) stat failure,
modelled by `none`; a directory returns `false`; otherwise `true`. -/
def fileIsExist (stat : String → Option FileInfo) (path : String) : Bool :=
  match stat path with
  | none => false
  | some f => if f.isDir then false else true

/-- Environment a `NewPpocr`/`initPpocr` call runs against: the file
system, whether pipe creation and process start succeed, the worker's
stdout chunk sequence during the handshake, the stream's terminal error
text, captured stderr, and the process-exit error the background waiter
may have recorded. -/
structure WorkerEnv where
  stat : String → Option FileInfo
  stdinPipeOk : Bool
  stdoutPipeOk : Bool
  startOk : Bool
  stdoutChunks : List (List Nat)
  readErrMsg : String
  stderrText : String
  procErr : Option String

/-- Transcription of `initPpocr` over a `WorkerEnv`: build the command,
create the two pipes, start the process (each failure returned as an
error), then run the handshake loop; on loop completion return
`p.internalErr` (the process-exit error if the waiter recorded one).  The
trace records resource actions; the handshake reads are summarised by one
`stdoutRead` entry. -/
def initPpocrTrace (env : WorkerEnv) : Except String Unit × List Ev :=
  if env.stdinPipeOk = false then
    (.error "stdin pipe creation failed", [.stdinPipe])
  else if env.stdoutPipeOk = false then
    (.error "stdout pipe creation failed", [.stdinPipe, .stdoutPipe])
  else if env.startOk = false then
    (.error "OCR process start failed", [.stdinPipe, .stdoutPipe, .procStart])
  else
    match initLoop env.stdoutChunks [] with
    | .completed _ =>
      (match env.procErr with
       | none => .ok ()
       | some e => .error e,
       [.stdinPipe, .stdoutPipe, .procStart, .stdoutRead])
    | .tooLong =>
      (.error "OCR init failed: output too long",
       [.stdinPipe, .stdoutPipe, .procStart, .stdoutRead])
    | .readErr acc =>
      (.error ("OCR init failed, error: " ++ env.readErrMsg ++ ", output: " ++
         String.mk (acc.map Char.ofNat) ++ " " ++ env.stderrText),
       [.stdinPipe, .stdoutPipe, .procStart, .stdoutRead])

/-- Transcription of `NewPpocr`: the `fileIsExist` guard returns the
not-found error before any resource action; otherwise `initPpocr` runs
and, on its failure, `p.close()` tears the partial worker down. -/
def NewPpocrTrace (env : WorkerEnv) (exePath : String) : Except String Unit × List Ev :=
  if fileIsExist env.stat exePath = false then
    (.error ("executable file " ++ exePath ++ " not found"), [])
  else
    match initPpocrTrace env with
    | (.ok _, evs) => (.ok (), evs)
    | (.error e, evs) => (.error e, evs ++ [.stdinClose, .procKill])

/-- The mutable supervisor state guarded by `ppLock`:
whether `restartExitChan` has been closed, the sticky `internalErr`,
whether the background waiter has a pending exit signal, and whether the
process has already exited. -/
structure PpState where
  restartExitClosed : Bool
  internalErr : Option String
  runExitPending : Bool
  procExited : Bool
deriving DecidableEq, Repr

/-- The lifecycle error message `Close` uses. -/
def closedMsg : String := "OCR process has been closed"

/-- Transcription of the lower-case `close()`: if the exit signal is
already pending, consume it and return; otherwise close stdin, kill the
process, and wait for the exit signal (the kill itself is modelled as
succeeding; a panic during it is converted to an error by the deferred
recover, a path no claim exercises). -/
def closeLower (s : PpState) : Option String × PpState × List Ev :=
  if s.runExitPending then (none, { s with runExitPending := false }, [])
  else if s.procExited then (none, { s with runExitPending := false }, [])
  else
    (none, { s with procExited := true, runExitPending := false },
     [.stdinClose, .procKill])

/-- Transcription of `Close`: if `restartExitChan` is already closed
(receive succeeds), return the lifecycle error immediately; otherwise
close the channel, record the sticky `closedMsg` in `internalErr`, and
run the lower `close()`. -/
def CloseOp (s : PpState) : Except String Unit × PpState × List Ev :=
  if s.restartExitClosed then (.error closedMsg, s, [])
  else
    let r := closeLower { s with restartExitClosed := true, internalErr := some closedMsg }
    (match r.1 with
     | none => .ok ()
     | some m => .error m,
     r.2.1, .chanCloseRestart :: r.2.2)

/-- One request/response exchange of `Ppocr.ocr`: write the request bytes
and the newline, then run the receive loop on the worker's output. -/
def exchange (wout : List (List Nat)) (req : List Char) :
    Except String (List Nat) × List Ev :=
  (match recvLoop wout [] 10240 with
   | .done bs => .ok bs
   | .readErr => .error "read error"
   | .panicked => .error "panic: index out of range",
   [.stdinWrite req, .stdinWrite ['\n'], .stdoutRead])

/-- Transcription of `Ppocr.OcrFile`: marshal the path request (cannot
fail), take the lock, fail fast with the sticky `internalErr` when it is
set — before touching either stream — else run the exchange. -/
def OcrFileOp (s : PpState) (wout : List (List Nat)) (imagePath : String) :
    Except String (List Nat) × PpState × List Ev :=
  match s.internalErr with
  | some e => (.error e, s, [])
  | none =>
    let r := exchange wout (requestBytes (ocrFileFields imagePath))
    (r.1, s, r.2)

/-- Transcription of `Ppocr.Ocr` (raw-bytes variant): the sticky
`internalErr` check happens before the lock in the source; sequentially
the observable outcome is the same fail-fast. -/
def OcrRawOp (s : PpState) (wout : List (List Nat)) (image : List Nat) :
    Except String (List Nat) × PpState × List Ev :=
  match s.internalErr with
  | some e => (.error e, s, [])
  | none =>
    let r := exchange wout (requestBytes (ocrRawFields image))
    (r.1, s, r.2)

/-- Transcription of one `restartTimer` event: once `restartExitChan` is
closed the loop takes the exit branch and performs nothing (Go's `select`
chooses randomly among ready cases; the timer goroutine exits on its next
iteration, modelled as exiting immediately); otherwise a tick runs
`close()` then re-init under the lock and stores the init result in
`internalErr` — `none` exactly when the re-init succeeded. -/
def RestartTickOp (s : PpState) (initRes : Except String Unit) : PpState × List Ev :=
  if s.restartExitClosed then (s, [])
  else
    let r := closeLower s
    match initRes with
    | .ok _ => ({ r.2.1 with internalErr := none, procExited := false }, r.2.2)
    | .error e => ({ r.2.1 with internalErr := some e }, r.2.2)

/-- The operations that touch the supervisor state. -/
inductive SupOp where
  | opClose : SupOp
  | opOcrFile : List (List Nat) → String → SupOp
  | opOcrRaw : List (List Nat) → List Nat → SupOp
  | opRestartTick : Except String Unit → SupOp

/-- The state reached after one supervisor operation. -/
def applyOp (s : PpState) : SupOp → PpState
  | .opClose => (CloseOp s).2.1
  | .opOcrFile wout path => (OcrFileOp s wout path).2.1
  | .opOcrRaw wout img => (OcrRawOp s wout img).2.1
  | .opRestartTick r => (RestartTickOp s r).1

/-- The `code` field of a decoded response is absent, null, or numeric —
the domain on which `ParseResult` cannot hit the `float64` type
assertion. -/
def codeFieldTame : JVal → Prop
  | .jobj kvs =>
    match jlookup kvs "code" with
    | none => True
    | some .jnull => True
    | some (.jnum _) => True
    | some _ => False
  | _ => True

/-- Space-joined rendering of a field list (the claim's "joined by
single spaces"). -/
def sepJoin : List (List Char) → List Char
  | [] => []
  | [f] => f
  | f :: g :: rest => f ++ ' ' :: sepJoin (g :: rest)

/-! ## Theorems -/

/-- C1: for every response line that is a well-formed JSON object with
numeric field `code` equal to 100 and a `data` field that is an array,
`ParseResult` returns without error a `Result` whose `Code` is 100 and
whose item sequence decodes the array elements exactly, in order. -/
theorem c1_parseResult_code100_decodes_items (kvs : List (String × JVal))
    (elems : List JVal) (ds : List OcrData)
    (hcode : jlookup kvs "code" = some (.jnum 100))
    (hdata : jlookup kvs "data" = some (.jarr elems))
    (hdec : elems.mapM decodeData = .ok ds) :
    ParseResultV (.jobj kvs) = .ret ⟨100, "parse success", ds⟩ none := by
  simp only [ParseResultV]
  rw [hcode]
  simp only [hdata, hdec]
  simp

/-- C1 witness: the spec's example line
`\x7b"code":100,"data":[\x7b"box":[[0,0],[10,0],[10,10],[0,10]],
"score":0.99,"text":"hello"\x7d]\x7d` yields code 100, one item with the
given box, score 99/100 and text `hello`. -/
theorem c1_witness :
    jlookup [("code", JVal.jnum 100),
        ("data", JVal.jarr [JVal.jobj [("box", JVal.jarr
            [JVal.jarr [JVal.jnum 0, JVal.jnum 0], JVal.jarr [JVal.jnum 10, JVal.jnum 0],
             JVal.jarr [JVal.jnum 10, JVal.jnum 10], JVal.jarr [JVal.jnum 0, JVal.jnum 10]]),
          ("score", JVal.jnum ⟨99, 100, by decide, by decide⟩),
          ("text", JVal.jstr "hello")]])] "code" = some (.jnum 100) ∧
    ((⟨99, 100, by decide, by decide⟩ : ℚ) = 99 / 100) ∧
    ParseResultV (.jobj [("code", JVal.jnum 100),
        ("data", JVal.jarr [JVal.jobj [("box", JVal.jarr
            [JVal.jarr [JVal.jnum 0, JVal.jnum 0], JVal.jarr [JVal.jnum 10, JVal.jnum 0],
             JVal.jarr [JVal.jnum 10, JVal.jnum 10], JVal.jarr [JVal.jnum 0, JVal.jnum 10]]),
          ("score", JVal.jnum ⟨99, 100, by decide, by decide⟩),
          ("text", JVal.jstr "hello")]])]) =
      .ret ⟨100, "parse success",
        [⟨[[0, 0], [10, 0], [10, 10], [0, 10]], ⟨99, 100, by decide, by decide⟩, "hello"⟩]⟩
        none :=
  ⟨rfl, by rw [Rat.mk'_eq_divInt, Rat.divInt_eq_div]; norm_num,
   c1_parseResult_code100_decodes_items _ _ _ rfl rfl rfl⟩

/-- C2: a response object with an integer-valued numeric `code` other
than 100 parses without error into a `Result` carrying that code, the
`%v` stringification of the `data` field as message, and no items.  (The
wire protocol types `code` as an int; a non-integral numeric code would
additionally be truncated by Go's `int(...)` conversion.) -/
theorem c2_parseResult_noncode_message (kvs : List (String × JVal)) (c : ℚ)
    (hcode : jlookup kvs "code" = some (.jnum c))
    (hden : c.den = 1) (hne : c ≠ 100) :
    ParseResultV (.jobj kvs) =
      .ret ⟨c.num, goSprintAny (jlookup kvs "data"), []⟩ none := by
  simp only [ParseResultV]
  rw [hcode]
  simp only [if_pos hne]
  unfold goTruncInt
  rw [hden]
  simp

/-- C2 witness: the spec's example line
`\x7b"code":101,"data":"no text found"\x7d` yields code 101, message
`no text found`, no items, and a nil error. -/
theorem c2_witness :
    jlookup [("code", JVal.jnum 101), ("data", JVal.jstr "no text found")] "code" =
      some (.jnum 101) ∧
    (101 : ℚ).den = 1 ∧ (101 : ℚ) ≠ 100 ∧
    ParseResultV (.jobj [("code", JVal.jnum 101), ("data", JVal.jstr "no text found")]) =
      .ret ⟨101, "no text found", []⟩ none :=
  ⟨rfl, rfl, by decide,
   c2_parseResult_noncode_message [("code", JVal.jnum 101), ("data", JVal.jstr "no text found")]
     101 rfl rfl (by decide)⟩

/-- C3 counterexample: the claim says `ParseResult` never panics and in
particular reports an error when `code` is present but not a number; on
the line `\x7b"code":"x"\x7d` the type assertion `resp["code"].(float64)`
panics instead. -/
theorem c3_counterexample :
    (ParseResultV (.jobj [("code", JVal.jstr "x")])).isRet = false := rfl

/-- C3 amended: `ParseResult` returns (a `Result` or an error, never a
panic) for every input whose `code` field is absent, null, or numeric —
including every non-object input; when `code` is present but not a
number, the `float64` type assertion panics. -/
theorem c3_amended_total_on_tame_code (v : JVal) (h : codeFieldTame v) :
    (ParseResultV v).isRet = true := by
  cases v with
  | jobj kvs =>
    simp only [codeFieldTame] at h
    simp only [ParseResultV]
    cases hl : jlookup kvs "code" with
    | none => rfl
    | some w =>
      rw [hl] at h
      cases w with
      | jnull => rfl
      | jnum c =>
        dsimp only
        by_cases hc : c ≠ 100
        · rw [if_pos hc]
          rfl
        · rw [if_neg hc]
          cases hd : jlookup kvs "data" with
          | none => rfl
          | some dv =>
            cases dv with
            | jarr elems =>
              dsimp only
              cases hdec : elems.mapM decodeData <;> rfl
            | _ => rfl
      | _ => exact absurd h (by simp)
  | _ => rfl

/-- C3 amended witness: the no-code object `\x7b"data":[]\x7d` is in the
tame domain and returns (with the `no code in response` error) rather
than panicking. -/
theorem c3_witness :
    codeFieldTame (.jobj [("data", JVal.jarr [])]) ∧
    (ParseResultV (.jobj [("data", JVal.jarr [])])).isRet = true :=
  ⟨trivial, c3_amended_total_on_tame_code (.jobj [("data", JVal.jarr [])]) trivial⟩

/-- C6: for every path the file system reports as nonexistent (or any
stat failure) or as a directory, `NewPpocr` returns the not-found error
and performs no resource action at all: no process spawn, no streams
opened. -/
theorem c6_newPpocr_missing_or_dir_no_spawn (env : WorkerEnv) (path : String)
    (h : env.stat path = none ∨ ∃ fi, env.stat path = some fi ∧ fi.isDir = true) :
    NewPpocrTrace env path =
      (.error ("executable file " ++ path ++ " not found"), []) := by
  have hfe : fileIsExist env.stat path = false := by
    unfold fileIsExist
    rcases h with h | ⟨fi, h1, h2⟩
    · rw [h]
    · rw [h1]
      simp [h2]
  unfold NewPpocrTrace
  rw [hfe]
  simp

/-- C6 witness: against an empty file system, `NewPpocr "x.exe"` fails
with the not-found error and an empty resource trace. -/
theorem c6_witness :
    ((fun _ => none : String → Option FileInfo) "x.exe" = none ∨
      ∃ fi, (fun _ => none : String → Option FileInfo) "x.exe" = some fi ∧ fi.isDir = true) ∧
    NewPpocrTrace ⟨fun _ => none, true, true, true, [], "EOF", "", none⟩ "x.exe" =
      (.error ("executable file " ++ "x.exe" ++ " not found"), []) :=
  ⟨Or.inl rfl,
   c6_newPpocr_missing_or_dir_no_spawn ⟨fun _ => none, true, true, true, [], "EOF", "", none⟩
     "x.exe" (Or.inl rfl)⟩

/-- No hex digit character is a newline. -/
theorem hexDigit_ne_newline (m : Nat) : hexDigit m ≠ '\n' := by
  unfold hexDigit
  split <;> decide

/-- Characters emitted by the JSON string escaper are never a raw
newline. -/
theorem jsonEscapeChar_no_newline (c d : Char) (hd : d ∈ jsonEscapeChar c) :
    d ≠ '\n' := by
  unfold jsonEscapeChar at hd
  split at hd
  · fin_cases hd <;> decide
  · split at hd
    · fin_cases hd <;> decide
    · split at hd
      · fin_cases hd <;> decide
      · split at hd
        · fin_cases hd <;> decide
        · split at hd
          · fin_cases hd <;> decide
          · split at hd
            · fin_cases hd <;> first | decide | apply hexDigit_ne_newline
            · rename_i hcond
              simp at hd
              subst hd
              intro hcon
              subst hcon
              revert hcond
              decide

/-- A marshalled JSON string literal contains no raw newline byte. -/
theorem jsonQuote_no_newline (s : String) (d : Char) (hd : d ∈ jsonQuote s) :
    d ≠ '\n' := by
  unfold jsonQuote at hd
  rcases List.mem_cons.1 hd with h | h
  · subst h
    decide
  · rcases List.mem_append.1 h with h2 | h2
    · rcases List.mem_flatten.1 h2 with ⟨l, hl, hdl⟩
      rcases List.mem_map.1 hl with ⟨c, _, hc⟩
      exact jsonEscapeChar_no_newline c d (hc ▸ hdl)
    · simp at h2
      subst h2
      decide

/-- A rendered single-field request object contains no raw newline. -/
theorem renderObj_single_no_newline (k : String) (v : List Char)
    (hv : ∀ d ∈ v, d ≠ '\n') (d : Char) (hd : d ∈ renderObj [(k, v)]) :
    d ≠ '\n' := by
  unfold renderObj at hd
  rcases List.mem_cons.1 hd with h | h
  · subst h
    decide
  · simp only [List.map_cons, List.map_nil, List.intercalate, List.intersperse_singleton,
      List.flatten_cons, List.flatten_nil, List.append_nil] at h
    rcases List.mem_append.1 h with h2 | h2
    · rcases List.mem_append.1 h2 with h3 | h3
      · exact jsonQuote_no_newline k d h3
      · rcases List.mem_cons.1 h3 with h4 | h4
        · subst h4
          decide
        · exact hv d h4
    · simp at h2
      subst h2
      decide

/-- C10 counterexample: the claim says every request populates exactly
one of `image_path`/`image_base64`; the request `OcrFile("")` marshals —
because of `omitempty` — the object `\x7b\x7d` with neither field,
followed by the newline. -/
theorem c10_counterexample :
    (ocrFileFields "").map Prod.fst = [] ∧
    requestBytes (ocrFileFields "") = ['\x7b', '\x7d', '\n'] := by
  constructor
  · rfl
  · decide

/-- C10 amended: for every request with a nonempty image path
(`OcrFile`) or nonempty image bytes (`Ocr`), the bytes written to the
worker's stdin are a single-line JSON object populating exactly the one
corresponding field (`image_path` resp. `image_base64`), followed by
exactly one terminating newline (the object body contains no newline
byte); an empty path or empty byte slice is dropped by `omitempty`,
leaving an empty object with neither field. -/
theorem c10_request_one_field_one_newline (p : String) (img : List Nat)
    (hp : p ≠ "") (himg : img ≠ []) :
    ((ocrFileFields p).map Prod.fst = ["image_path"] ∧
     requestBytes (ocrFileFields p) = renderObj (ocrFileFields p) ++ ['\n'] ∧
     ∀ d ∈ renderObj (ocrFileFields p), d ≠ '\n') ∧
    ((ocrRawFields img).map Prod.fst = ["image_base64"] ∧
     requestBytes (ocrRawFields img) = renderObj (ocrRawFields img) ++ ['\n'] ∧
     ∀ d ∈ renderObj (ocrRawFields img), d ≠ '\n') := by
  have hfp : ocrFileFields p = [("image_path", jsonQuote p)] := by
    simp [ocrFileFields, marshalImageDataFields, hp]
  have hfi : ocrRawFields img = [("image_base64", jsonQuote ⟨base64Enc img⟩)] := by
    simp [ocrRawFields, marshalImageDataFields, himg]
  refine ⟨⟨by rw [hfp]; rfl, rfl, ?_⟩, ⟨by rw [hfi]; rfl, rfl, ?_⟩⟩
  · rw [hfp]
    exact fun d hd =>
      renderObj_single_no_newline _ _ (fun e he => jsonQuote_no_newline p e he) d hd
  · rw [hfi]
    exact fun d hd =>
      renderObj_single_no_newline _ _
        (fun e he => jsonQuote_no_newline ⟨base64Enc img⟩ e he) d hd

/-- C10 amended witness: the requests for path `x.png` and for the raw
byte `77` each populate exactly their one field and end in the single
newline. -/
theorem c10_witness :
    ("x.png" : String) ≠ "" ∧ ([77] : List Nat) ≠ [] ∧
    (((ocrFileFields "x.png").map Prod.fst = ["image_path"] ∧
      requestBytes (ocrFileFields "x.png") = renderObj (ocrFileFields "x.png") ++ ['\n'] ∧
      ∀ d ∈ renderObj (ocrFileFields "x.png"), d ≠ '\n') ∧
     ((ocrRawFields [77]).map Prod.fst = ["image_base64"] ∧
      requestBytes (ocrRawFields [77]) = renderObj (ocrRawFields [77]) ++ ['\n'] ∧
      ∀ d ∈ renderObj (ocrRawFields [77]), d ≠ '\n')) :=
  ⟨by decide, by decide,
   c10_request_one_field_one_newline "x.png" [77] (by decide) (by decide)⟩

/-- After any `Close`, the restart-exit channel is recorded as closed. -/
theorem closeOp_restartExitClosed (s : PpState) :
    ((CloseOp s).2.1).restartExitClosed = true := by
  unfold CloseOp closeLower
  split
  · assumption
  · dsimp only
    split
    · rfl
    · split
      · rfl
      · rfl

/-- The `internalErr` recorded by `Close`: untouched when the channel was
already closed, the sticky lifecycle error otherwise. -/
theorem closeOp_internalErr (s : PpState) :
    ((CloseOp s).2.1).internalErr =
      if s.restartExitClosed then s.internalErr else some closedMsg := by
  unfold CloseOp closeLower
  split
  · rfl
  · dsimp only
    split
    · rfl
    · split
      · rfl
      · rfl

/-- A `Close` on a not-yet-closed supervisor begins its trace with the
channel close. -/
theorem closeOp_events_first (s : PpState) (h : s.restartExitClosed = false) :
    ∃ tl, (CloseOp s).2.2 = Ev.chanCloseRestart :: tl := by
  unfold CloseOp closeLower
  rw [h]
  simp only [Bool.false_eq_true, if_false]
  split
  · exact ⟨_, rfl⟩
  · split
    · exact ⟨_, rfl⟩
    · exact ⟨_, rfl⟩

/-- A `Close` on an already-closed supervisor returns the lifecycle
error immediately: state unchanged, no events. -/
theorem closeOp_on_closed (s : PpState) (h : s.restartExitClosed = true) :
    CloseOp s = (.error closedMsg, s, []) := by
  unfold CloseOp
  rw [h]
  rfl

/-- The `internalErr` after a restart tick: untouched once the channel
is closed (the timer goroutine has exited), otherwise exactly the
re-init result. -/
theorem restartTickOp_internalErr (s : PpState) (r : Except String Unit) :
    ((RestartTickOp s r).1).internalErr =
      if s.restartExitClosed then s.internalErr
      else
        match r with
        | .ok _ => none
        | .error e => some e := by
  unfold RestartTickOp closeLower
  split
  · rfl
  · dsimp only
    cases r with
    | ok u =>
      split
      · rfl
      · split
        · rfl
        · rfl
    | error e2 =>
      split
      · rfl
      · split
        · rfl
        · rfl

/-- C5: the first `Close` on a non-closed supervisor performs shutdown
(closes the restart-exit channel, recorded first in the trace and in the
state); a second `Close` always returns the lifecycle error with an
unchanged state and an empty trace — no stream or process I/O and no
second channel close. -/
theorem c5_close_twice (s : PpState) (h : s.restartExitClosed = false) :
    ((CloseOp s).2.1).restartExitClosed = true ∧
    Ev.chanCloseRestart ∈ (CloseOp s).2.2 ∧
    CloseOp ((CloseOp s).2.1) = (.error closedMsg, (CloseOp s).2.1, []) := by
  refine ⟨closeOp_restartExitClosed s, ?_, ?_⟩
  · obtain ⟨tl, htl⟩ := closeOp_events_first s h
    rw [htl]
    exact List.mem_cons_self _ _
  · exact closeOp_on_closed _ (closeOp_restartExitClosed s)

/-- C5 witness: on a fresh healthy supervisor state, the first `Close`
marks the channel closed and the second returns the lifecycle error with
no events. -/
theorem c5_witness :
    ((⟨false, none, false, false⟩ : PpState).restartExitClosed = false) ∧
    ((CloseOp ⟨false, none, false, false⟩).2.1).restartExitClosed = true ∧
    Ev.chanCloseRestart ∈ (CloseOp ⟨false, none, false, false⟩).2.2 ∧
    CloseOp ((CloseOp ⟨false, none, false, false⟩).2.1) =
      (.error closedMsg, (CloseOp ⟨false, none, false, false⟩).2.1, []) :=
  ⟨rfl, c5_close_twice ⟨false, none, false, false⟩ rfl⟩

/-- C4: the sticky-fatal-error invariant.  `Close` records the sticky
lifecycle error; a restart tick whose re-init failed records that init
error; any `OcrFile`/`Ocr` request against a state with a sticky error
returns that error immediately, with unchanged state and an empty trace
(no stream writes or reads); and the only operation that clears a sticky
error is a restart tick whose re-init succeeded (on a not-yet-closed
supervisor). -/
theorem c4_sticky_fatal_error (s : PpState) (e einit : String)
    (wout : List (List Nat)) (path : String) (img : List Nat) (op : SupOp) :
    (s.restartExitClosed = false → ((CloseOp s).2.1).internalErr = some closedMsg) ∧
    (s.restartExitClosed = false →
      ((RestartTickOp s (.error einit)).1).internalErr = some einit) ∧
    (s.internalErr = some e → OcrFileOp s wout path = (.error e, s, [])) ∧
    (s.internalErr = some e → OcrRawOp s wout img = (.error e, s, [])) ∧
    (s.internalErr = some e → (applyOp s op).internalErr = none →
      op = .opRestartTick (.ok ()) ∧ s.restartExitClosed = false) := by
  refine ⟨?_, ?_, ?_, ?_, ?_⟩
  · intro h
    rw [closeOp_internalErr, h]
    simp
  · intro h
    rw [restartTickOp_internalErr, h]
    simp
  · intro h
    unfold OcrFileOp
    rw [h]
  · intro h
    unfold OcrRawOp
    rw [h]
  · intro h hclear
    cases op with
    | opClose =>
      exfalso
      unfold applyOp at hclear
      rw [closeOp_internalErr] at hclear
      by_cases hc : s.restartExitClosed
      · rw [if_pos hc, h] at hclear
        cases hclear
      · rw [if_neg hc] at hclear
        cases hclear
    | opOcrFile w q =>
      exfalso
      unfold applyOp OcrFileOp at hclear
      rw [h] at hclear
      dsimp only at hclear
      rw [h] at hclear
      cases hclear
    | opOcrRaw w q =>
      exfalso
      unfold applyOp OcrRawOp at hclear
      rw [h] at hclear
      dsimp only at hclear
      rw [h] at hclear
      cases hclear
    | opRestartTick r =>
      unfold applyOp at hclear
      rw [restartTickOp_internalErr] at hclear
      by_cases hc : s.restartExitClosed
      · rw [if_pos hc, h] at hclear
        cases hclear
      · rw [if_neg hc] at hclear
        cases r with
        | ok u => exact ⟨rfl, by simpa using hc⟩
        | error e2 => cases hclear

/-- C4 witness: on the faulted state with sticky error `boom`, `Close`
records the lifecycle error, a failed restart records `initfail`,
requests fail fast with `boom` and empty traces, and a successful
restart tick clears the sticky error only as such. -/
theorem c4_witness :
    (((CloseOp ⟨false, some "boom", false, false⟩).2.1).internalErr = some closedMsg) ∧
    (((RestartTickOp ⟨false, some "boom", false, false⟩ (.error "initfail")).1).internalErr =
      some "initfail") ∧
    (OcrFileOp ⟨false, some "boom", false, false⟩ [] "x.png" =
      (.error "boom", ⟨false, some "boom", false, false⟩, [])) ∧
    (OcrRawOp ⟨false, some "boom", false, false⟩ [] [77] =
      (.error "boom", ⟨false, some "boom", false, false⟩, [])) ∧
    ((.opRestartTick (.ok ()) : SupOp) = .opRestartTick (.ok ()) ∧
      (⟨false, some "boom", false, false⟩ : PpState).restartExitClosed = false) :=
  ⟨(c4_sticky_fatal_error ⟨false, some "boom", false, false⟩ "boom" "initfail" [] "x.png" [77]
      (.opRestartTick (.ok ()))).1 rfl,
   (c4_sticky_fatal_error ⟨false, some "boom", false, false⟩ "boom" "initfail" [] "x.png" [77]
      (.opRestartTick (.ok ()))).2.1 rfl,
   (c4_sticky_fatal_error ⟨false, some "boom", false, false⟩ "boom" "initfail" [] "x.png" [77]
      (.opRestartTick (.ok ()))).2.2.1 rfl,
   (c4_sticky_fatal_error ⟨false, some "boom", false, false⟩ "boom" "initfail" [] "x.png" [77]
      (.opRestartTick (.ok ()))).2.2.2.1 rfl,
   (c4_sticky_fatal_error ⟨false, some "boom", false, false⟩ "boom" "initfail" [] "x.png" [77]
      (.opRestartTick (.ok ()))).2.2.2.2 rfl rfl⟩

/-- Characterization of the handshake loop: starting from a short
accumulation not yet containing the marker, it completes if and only if
some whole-chunk boundary keeps the accumulated bytes under 4096 while
containing the marker.  (A chunk split can only occur when the buffer
fills, which is the `output too long` failure, so every completion
happens at a chunk boundary.) -/
theorem initLoop_completed_iff (chunks : List (List Nat)) (acc : List Nat)
    (hlen : acc.length < 4096) (hnc : bytesContains acc markerBytes = false) :
    (∃ res, initLoop chunks acc = .completed res) ↔
      ∃ k, k ≤ chunks.length ∧ (acc ++ (chunks.take k).flatten).length < 4096 ∧
        bytesContains (acc ++ (chunks.take k).flatten) markerBytes = true := by
  revert hlen hnc
  induction chunks, acc using initLoop.induct with
  | case1 acc =>
    intro hlen hnc
    simp only [initLoop]
    constructor
    · rintro ⟨res, hres⟩
      cases hres
    · rintro ⟨k, hk, hlt, hcont⟩
      have hk0 : k = 0 := Nat.le_zero.mp hk
      subst hk0
      simp only [List.take_zero, List.flatten_nil, List.append_nil] at hcont
      rw [hnc] at hcont
      cases hcont
  | case2 c rest acc h1 =>
    intro hlen hnc
    simp only [initLoop]
    rw [if_pos h1]
    constructor
    · rintro ⟨res, hres⟩
      cases hres
    · rintro ⟨k, hk, hlt, hcont⟩
      exfalso
      simp only [List.length_append, List.length_take] at h1
      cases k with
      | zero =>
        simp only [List.take_zero, List.flatten_nil, List.append_nil] at hcont
        rw [hnc] at hcont
        cases hcont
      | succ k' =>
        rw [List.take_succ_cons, List.flatten_cons] at hlt
        simp only [List.length_append] at hlt
        omega
  | case3 c rest acc h1 h2 =>
    intro hlen hnc
    have h1' : acc.length + min (4096 - acc.length) c.length < 4096 := by
      simp only [List.length_append, List.length_take] at h1
      omega
    have hsp : c.length ≤ 4096 - acc.length := by omega
    have htake : c.take (4096 - acc.length) = c := List.take_of_length_le hsp
    rw [htake] at h1 h2
    constructor
    · intro _
      refine ⟨1, by simp, ?_, ?_⟩
      · simp only [List.take_succ_cons, List.take_zero, List.flatten_cons,
          List.flatten_nil, List.append_nil, List.length_append]
        omega
      · simp only [List.take_succ_cons, List.take_zero, List.flatten_cons,
          List.flatten_nil, List.append_nil]
        exact h2
    · intro _
      refine ⟨acc ++ c, ?_⟩
      simp only [initLoop]
      rw [htake, if_neg h1, if_pos h2]
  | case4 c rest acc h1 h2 ih =>
    intro hlen hnc
    have h1' : acc.length + min (4096 - acc.length) c.length < 4096 := by
      simp only [List.length_append, List.length_take] at h1
      omega
    have hsp : c.length ≤ 4096 - acc.length := by omega
    have htake : c.take (4096 - acc.length) = c := List.take_of_length_le hsp
    rw [htake] at h1 h2 ih
    rw [dif_pos hsp] at ih
    have hlen2 : (acc ++ c).length < 4096 := by
      simp only [List.length_append]
      omega
    have hnc2 : bytesContains (acc ++ c) markerBytes = false :=
      Bool.not_eq_true _ |>.mp h2
    have hstep : initLoop (c :: rest) acc = initLoop rest (acc ++ c) := by
      simp only [initLoop]
      rw [htake, if_neg h1, if_neg h2, if_pos hsp]
    rw [hstep, ih hlen2 hnc2]
    constructor
    · rintro ⟨k, hk, hlt, hcont⟩
      refine ⟨k + 1, by simpa using Nat.succ_le_succ hk, ?_, ?_⟩
      · rw [List.take_succ_cons, List.flatten_cons, ← List.append_assoc]
        exact hlt
      · rw [List.take_succ_cons, List.flatten_cons, ← List.append_assoc]
        exact hcont
    · rintro ⟨k, hk, hlt, hcont⟩
      cases k with
      | zero =>
        simp only [List.take_zero, List.flatten_nil, List.append_nil] at hcont
        rw [hnc] at hcont
        cases hcont
      | succ k' =>
        rw [List.take_succ_cons, List.flatten_cons, ← List.append_assoc] at hlt hcont
        exact ⟨k', by simpa using hk, hlt, hcont⟩

/-- C8: under a successfully created worker (pipes created, process
started, no recorded exit error), the handshake of `initPpocr` succeeds
if and only if the marker `OCR init completed.` appears within the
accumulated standard-output bytes at some chunk boundary where fewer
than 4096 bytes have accumulated; if the stream errors first or the
4096-byte buffer fills before that, init returns an error. -/
theorem c8_handshake_marker_iff (env : WorkerEnv)
    (hin : env.stdinPipeOk = true) (hout : env.stdoutPipeOk = true)
    (hstart : env.startOk = true) (hproc : env.procErr = none) :
    (initPpocrTrace env).1 = .ok () ↔
      ∃ k, k ≤ env.stdoutChunks.length ∧
        ((env.stdoutChunks.take k).flatten).length < 4096 ∧
        bytesContains ((env.stdoutChunks.take k).flatten) markerBytes = true := by
  have hloop := initLoop_completed_iff env.stdoutChunks [] (by decide) (by decide)
  simp only [List.nil_append] at hloop
  unfold initPpocrTrace
  rw [hin, hout, hstart]
  simp only [Bool.true_eq_false, if_false]
  rw [← hloop]
  cases hres : initLoop env.stdoutChunks [] with
  | completed res =>
    rw [hproc]
    dsimp only
    exact ⟨fun _ => ⟨res, rfl⟩, fun _ => rfl⟩
  | tooLong =>
    dsimp only
    constructor
    · intro h
      simp at h
    · rintro ⟨res, hres2⟩
      cases hres2
  | readErr a =>
    dsimp only
    constructor
    · intro h
      simp at h
    · rintro ⟨res, hres2⟩
      cases hres2

/-- C8 witness: a worker that emits `OCR init completed.` followed by a
newline in its first chunk satisfies the handshake characterization. -/
theorem c8_witness :
    (⟨fun _ => some ⟨false⟩, true, true, true, [markerBytes ++ [10]], "EOF", "", none⟩ :
        WorkerEnv).stdinPipeOk = true ∧
    ((initPpocrTrace
        ⟨fun _ => some ⟨false⟩, true, true, true, [markerBytes ++ [10]], "EOF", "", none⟩).1 =
          .ok () ↔
      ∃ k, k ≤ ([markerBytes ++ [10]] : List (List Nat)).length ∧
        ((([markerBytes ++ [10]] : List (List Nat)).take k).flatten).length < 4096 ∧
        bytesContains ((([markerBytes ++ [10]] : List (List Nat)).take k).flatten)
          markerBytes = true) :=
  ⟨rfl,
   c8_handshake_marker_iff
     ⟨fun _ => some ⟨false⟩, true, true, true, [markerBytes ++ [10]], "EOF", "", none⟩
     rfl rfl rfl rfl⟩

/-- Prepending a common prefix preserves the prefix order. -/
theorem prefix_append_left {α : Type} (p : List α) {a b : List α} (h : a <+: b) :
    p ++ a <+: p ++ b := by
  obtain ⟨t, ht⟩ := h
  exact ⟨t, by rw [List.append_assoc, ht]⟩

/-- The bytes a read takes from the front chunk, followed by the
remaining stream, reassemble the original stream. -/
theorem take_splitRest_flatten (c : List Nat) (rest : List (List Nat)) (n : Nat) :
    c.take n ++ (if c.length ≤ n then rest else c.drop n :: rest).flatten =
      (c :: rest).flatten := by
  split
  · rename_i hfit
    rw [List.take_of_length_le hfit, List.flatten_cons]
  · rw [List.flatten_cons, List.flatten_cons, ← List.append_assoc, List.take_append_drop]

/-- Soundness of the receive loop: a successful receive returns the
previous accumulation extended by a prefix of the stream, and its last
byte is the newline. -/
theorem recvLoop_done_spec (chunks : List (List Nat)) (acc : List Nat) (cap : Nat)
    (bs : List Nat) (h : recvLoop chunks acc cap = .done bs) :
    bs.getLast? = some 10 ∧ ∃ t, bs = acc ++ t ∧ t <+: chunks.flatten := by
  revert h
  induction chunks, acc, cap using recvLoop.induct with
  | case1 acc cap =>
    intro h
    simp only [recvLoop] at h
    cases h
  | case2 c rest acc cap heq =>
    intro h
    simp only [recvLoop] at h
    rw [heq] at h
    dsimp only at h
    cases h
  | case3 c rest acc cap heq =>
    intro h
    simp only [recvLoop] at h
    rw [heq] at h
    dsimp only at h
    rw [if_pos rfl] at h
    cases h
    refine ⟨heq, c.take (cap - acc.length), rfl, ?_⟩
    rw [List.flatten_cons]
    exact (List.take_prefix _ _).trans (List.prefix_append _ _)
  | case4 c rest acc cap b heq hb ih =>
    intro h
    simp only [recvLoop] at h
    rw [heq] at h
    dsimp only at h
    rw [if_neg hb] at h
    obtain ⟨hlast, t, ht, hpre⟩ := ih h
    refine ⟨hlast, c.take (cap - acc.length) ++ t, by rw [ht, List.append_assoc], ?_⟩
    rw [← take_splitRest_flatten c rest (cap - acc.length)]
    exact prefix_append_left _ hpre

/-- Progress of the receive loop: when every chunk is nonempty, the
accumulation fits the capacity, and the stream's remaining bytes end in
a newline, the loop terminates successfully. -/
theorem recvLoop_done_of_newline (chunks : List (List Nat)) (acc : List Nat) (cap : Nat)
    (hne : ∀ c ∈ chunks, c ≠ []) (hcap : acc.length < cap) (hchunks : chunks ≠ [])
    (hl : (acc ++ chunks.flatten).getLast? = some 10) :
    ∃ bs, recvLoop chunks acc cap = .done bs := by
  revert hne hcap hchunks hl
  induction chunks, acc, cap using recvLoop.induct with
  | case1 acc cap =>
    intro _ _ hchunks _
    exact absurd rfl hchunks
  | case2 c rest acc cap heq =>
    intro hne hcap _ _
    exfalso
    rw [List.getLast?_eq_none_iff, List.append_eq_nil] at heq
    obtain ⟨hacc, htk⟩ := heq
    have hc : c ≠ [] := hne c (List.mem_cons_self _ _)
    rw [List.take_eq_nil_iff] at htk
    rcases htk with htk | htk
    · rw [hacc] at hcap htk
      simp at hcap htk
      omega
    · exact hc htk
  | case3 c rest acc cap heq =>
    intro _ _ _ _
    refine ⟨acc ++ c.take (cap - acc.length), ?_⟩
    simp only [recvLoop]
    rw [heq]
    dsimp only
    rw [if_pos rfl]
  | case4 c rest acc cap b heq hb ih =>
    intro hne hcap _ hl
    simp only [dite_eq_ite] at ih
    have hstep : recvLoop (c :: rest) acc cap =
        recvLoop (if c.length ≤ cap - acc.length then rest else c.drop (cap - acc.length) :: rest)
          (acc ++ c.take (cap - acc.length))
          (if cap ≤ (acc ++ c.take (cap - acc.length)).length then cap + 10240 else cap) := by
      simp only [recvLoop]
      rw [heq]
      dsimp only
      rw [if_neg hb]
    rw [hstep]
    have hflat : (acc ++ c.take (cap - acc.length)) ++
        (if c.length ≤ cap - acc.length then rest
          else c.drop (cap - acc.length) :: rest).flatten = acc ++ (c :: rest).flatten := by
      rw [List.append_assoc, take_splitRest_flatten]
    apply ih
    · intro c2 hc2
      revert hc2
      split
      · intro hc2
        exact hne c2 (List.mem_cons_of_mem _ hc2)
      · rename_i hnofit
        intro hc2
        rcases List.mem_cons.1 hc2 with hh | hh
        · subst hh
          intro hdrop
          have := congrArg List.length hdrop
          simp only [List.length_drop, List.length_nil] at this
          omega
        · exact hne c2 (List.mem_cons_of_mem _ hh)
    · have htk : (c.take (cap - acc.length)).length = min (cap - acc.length) c.length := by
        simp
      split
      · simp only [List.length_append]
        omega
      · rename_i hg
        simp only [List.length_append] at hg ⊢
        omega
    · intro hnil
      rw [hnil, List.flatten_nil, List.append_nil] at hflat
      rw [← hflat] at hl
      rw [heq] at hl
      cases hl
      exact hb rfl
    · rw [hflat]
      exact hl

/-- The receive loop never panics when every chunk delivers at least one
byte and the accumulation fits the capacity. -/
theorem recvLoop_no_panic (chunks : List (List Nat)) (acc : List Nat) (cap : Nat)
    (hne : ∀ c ∈ chunks, c ≠ []) (hcap : acc.length < cap) :
    recvLoop chunks acc cap ≠ .panicked := by
  revert hne hcap
  induction chunks, acc, cap using recvLoop.induct with
  | case1 acc cap =>
    intro _ _ h
    simp only [recvLoop] at h
    cases h
  | case2 c rest acc cap heq =>
    intro hne hcap _
    rw [List.getLast?_eq_none_iff, List.append_eq_nil] at heq
    obtain ⟨hacc, htk⟩ := heq
    have hc : c ≠ [] := hne c (List.mem_cons_self _ _)
    rw [List.take_eq_nil_iff] at htk
    rcases htk with htk | htk
    · rw [hacc] at hcap htk
      simp at hcap htk
      omega
    · exact hc htk
  | case3 c rest acc cap heq =>
    intro _ _ h
    simp only [recvLoop] at h
    rw [heq] at h
    dsimp only at h
    rw [if_pos rfl] at h
    cases h
  | case4 c rest acc cap b heq hb ih =>
    intro hne hcap
    simp only [dite_eq_ite] at ih
    have hstep : recvLoop (c :: rest) acc cap =
        recvLoop (if c.length ≤ cap - acc.length then rest else c.drop (cap - acc.length) :: rest)
          (acc ++ c.take (cap - acc.length))
          (if cap ≤ (acc ++ c.take (cap - acc.length)).length then cap + 10240 else cap) := by
      simp only [recvLoop]
      rw [heq]
      dsimp only
      rw [if_neg hb]
    rw [hstep]
    apply ih
    · intro c2 hc2
      revert hc2
      split
      · intro hc2
        exact hne c2 (List.mem_cons_of_mem _ hc2)
      · rename_i hnofit
        intro hc2
        rcases List.mem_cons.1 hc2 with hh | hh
        · subst hh
          intro hdrop
          have := congrArg List.length hdrop
          simp only [List.length_drop, List.length_nil] at this
          omega
        · exact hne c2 (List.mem_cons_of_mem _ hh)
    · have htk : (c.take (cap - acc.length)).length = min (cap - acc.length) c.length := by
        simp
      split
      · simp only [List.length_append]
        omega
      · rename_i hg
        simp only [List.length_append] at hg ⊢
        omega

/-- C7: the receive loop of `Ppocr.ocr`, run over any chunked worker
output (short reads allowed, at least one byte per successful read):
a successful return carries accumulated bytes that are exactly a prefix
of the stream, in order without loss or overwrite, ending in the newline
it stopped at; if the stream's available bytes end in a newline the loop
succeeds rather than erroring; a read error is surfaced (only when the
accumulated stream never terminated with a newline); and the loop never
panics. -/
theorem c7_receive_accumulates_until_newline (chunks : List (List Nat))
    (hne : ∀ c ∈ chunks, c ≠ []) :
    (∀ bs, recvLoop chunks [] 10240 = .done bs →
      bs.getLast? = some 10 ∧ bs <+: chunks.flatten) ∧
    (chunks.flatten.getLast? = some 10 → ∃ bs, recvLoop chunks [] 10240 = .done bs) ∧
    (recvLoop chunks [] 10240 = .readErr → chunks.flatten.getLast? ≠ some 10) ∧
    recvLoop chunks [] 10240 ≠ .panicked := by
  refine ⟨?_, ?_, ?_, ?_⟩
  · intro bs h
    obtain ⟨hlast, t, ht, hpre⟩ := recvLoop_done_spec chunks [] 10240 bs h
    rw [List.nil_append] at ht
    exact ⟨hlast, ht ▸ hpre⟩
  · intro hl
    have hchunks : chunks ≠ [] := by
      intro hc
      rw [hc] at hl
      cases hl
    exact recvLoop_done_of_newline chunks [] 10240 hne (by simp) hchunks
      (by simpa using hl)
  · intro herr hl
    have hchunks : chunks ≠ [] := by
      intro hc
      rw [hc] at hl
      cases hl
    obtain ⟨bs, hbs⟩ := recvLoop_done_of_newline chunks [] 10240 hne (by simp) hchunks
      (by simpa using hl)
    rw [herr] at hbs
    cases hbs
  · exact recvLoop_no_panic chunks [] 10240 hne (by simp)

/-- C7 witness: the stream of chunks `[104, 105]` then `[10]` (two short
reads) is accumulated in order and ends at the newline. -/
theorem c7_witness :
    (∀ c ∈ ([[104, 105], [10]] : List (List Nat)), c ≠ []) ∧
    ((∀ bs, recvLoop [[104, 105], [10]] [] 10240 = .done bs →
      bs.getLast? = some 10 ∧ bs <+: ([[104, 105], [10]] : List (List Nat)).flatten) ∧
    (([[104, 105], [10]] : List (List Nat)).flatten.getLast? = some 10 →
      ∃ bs, recvLoop [[104, 105], [10]] [] 10240 = .done bs) ∧
    (recvLoop [[104, 105], [10]] [] 10240 = .readErr →
      ([[104, 105], [10]] : List (List Nat)).flatten.getLast? ≠ some 10) ∧
    recvLoop [[104, 105], [10]] [] 10240 ≠ .panicked) :=
  ⟨by decide, c7_receive_accumulates_until_newline [[104, 105], [10]] (by decide)⟩

/-- Decimal digit characters are not whitespace. -/
theorem decDigit_not_space (m : Nat) : goIsSpace (decDigit m) = false := by
  unfold decDigit
  split <;> decide

/-- All characters produced by the digit accumulator are non-whitespace,
given a non-whitespace accumulator. -/
theorem natDecAux_chars (n : Nat) (acc : List Char)
    (hacc : ∀ c ∈ acc, goIsSpace c = false) :
    ∀ c ∈ natDecAux n acc, goIsSpace c = false := by
  induction n, acc using natDecAux.induct with
  | case1 acc => simpa [natDecAux] using hacc
  | case2 n acc ih =>
    simp only [natDecAux]
    apply ih
    intro c hc
    rcases List.mem_cons.1 hc with hc | hc
    · subst hc
      exact decDigit_not_space _
    · exact hacc c hc

/-- The digit accumulator preserves nonemptiness of the accumulator. -/
theorem natDecAux_ne_nil (n : Nat) (acc : List Char) (h : acc ≠ []) :
    natDecAux n acc ≠ [] := by
  induction n, acc using natDecAux.induct with
  | case1 acc => simpa [natDecAux] using h
  | case2 n acc ih =>
    simp only [natDecAux]
    exact ih (by simp)

/-- Hypothesis-free restatements for `natDecAux` on an empty
accumulator: the induction is driven from the `case2` equation, so the
lemmas above need `hacc`/`h` only about the starting accumulator. -/
theorem natDec_chars (n : Nat) : ∀ c ∈ natDec n, goIsSpace c = false := by
  unfold natDec
  split
  · intro c hc
    rcases List.mem_cons.1 hc with hc | hc
    · subst hc
      decide
    · cases hc
  · exact natDecAux_chars n [] (by intro c hc; cases hc)

/-- The decimal rendering of a natural is never empty. -/
theorem natDec_ne_nil (n : Nat) : natDec n ≠ [] := by
  unfold natDec
  split
  · simp
  · rename_i hn
    cases n with
    | zero => exact absurd rfl hn
    | succ m =>
      simp only [natDecAux]
      exact natDecAux_ne_nil _ _ (by simp)

/-- The decimal rendering of an integer contains only non-whitespace
characters. -/
theorem intDec_chars (i : Int) : ∀ c ∈ intDec i, goIsSpace c = false := by
  unfold intDec
  split
  · intro c hc
    rcases List.mem_cons.1 hc with hc | hc
    · subst hc
      decide
    · exact natDec_chars _ c hc
  · exact natDec_chars _

/-- The decimal rendering of an integer is never empty. -/
theorem intDec_ne_nil (i : Int) : intDec i ≠ [] := by
  unfold intDec
  split
  · simp
  · exact natDec_ne_nil _

/-- The per-field concatenation with trailing spaces that `CmdString`
builds equals the space-joined fields followed by one final space. -/
theorem flatten_spaced_eq_sepJoin (f : List Char) (fs : List (List Char)) :
    (((f :: fs).map (· ++ [' '])).flatten) = sepJoin (f :: fs) ++ [' '] := by
  induction fs generalizing f with
  | nil => simp [sepJoin]
  | cons g rest ih =>
    simp only [List.map_cons, List.flatten_cons] at ih ⊢
    rw [ih g]
    show (f ++ [' ']) ++ (sepJoin (g :: rest) ++ [' ']) =
      (f ++ ' ' :: sepJoin (g :: rest)) ++ [' ']
    simp [List.append_assoc]

/-- The space-join of a nonempty field list starts with its first
field. -/
theorem sepJoin_cons_exists (f : List Char) (fs : List (List Char)) :
    ∃ X, sepJoin (f :: fs) = f ++ X := by
  cases fs with
  | nil => exact ⟨[], by simp [sepJoin]⟩
  | cons g rest => exact ⟨' ' :: sepJoin (g :: rest), rfl⟩

/-- The last character of a space-join of nonempty fields is the last
character of some field, so it inherits any character property of the
fields' last characters. -/
theorem sepJoin_getLast_prop (fs : List (List Char)) (hne : ∀ g ∈ fs, g ≠ [])
    (hp : ∀ g ∈ fs, ∀ ch, g.getLast? = some ch → goIsSpace ch = false) :
    ∀ ch, (sepJoin fs).getLast? = some ch → goIsSpace ch = false := by
  induction fs with
  | nil =>
    intro ch hch
    cases hch
  | cons f rest ih =>
    intro ch hch
    cases rest with
    | nil =>
      exact hp f (List.mem_cons_self _ _) ch (by simpa [sepJoin] using hch)
    | cons g rest2 =>
      rw [show sepJoin (f :: g :: rest2) = f ++ ' ' :: sepJoin (g :: rest2) from rfl,
        List.getLast?_append,
        show (' ' :: sepJoin (g :: rest2)) = [' '] ++ sepJoin (g :: rest2) from rfl,
        List.getLast?_append] at hch
      have hg : g ≠ [] := hne g (List.mem_cons_of_mem _ (List.mem_cons_self _ _))
      have hsne : sepJoin (g :: rest2) ≠ [] := by
        obtain ⟨X, hX⟩ := sepJoin_cons_exists g rest2
        rw [hX]
        intro hcon
        exact hg (List.append_eq_nil.mp hcon).1
      obtain ⟨x, hx⟩ : ∃ x, (sepJoin (g :: rest2)).getLast? = some x := by
        cases hS : (sepJoin (g :: rest2)).getLast? with
        | none => exact absurd (List.getLast?_eq_none_iff.mp hS) hsne
        | some x => exact ⟨x, rfl⟩
      rw [hx] at hch
      simp only [Option.or_some] at hch
      have hxc := Option.some.inj hch
      subst hxc
      exact ih (fun g2 hg2 => hne g2 (List.mem_cons_of_mem _ hg2))
        (fun g2 hg2 => hp g2 (List.mem_cons_of_mem _ hg2)) x hx

/-- `TrimSpace` of a word followed by one space recovers the word, when
the word neither starts nor ends with whitespace. -/
theorem goTrimSpaceL_wrap (L : List Char)
    (hhead : ∀ c, L.head? = some c → goIsSpace c = false)
    (hlast : ∀ c, L.getLast? = some c → goIsSpace c = false) :
    goTrimSpaceL (L ++ [' ']) = L := by
  cases L with
  | nil => rfl
  | cons c t =>
    have hc : goIsSpace c = false := hhead c rfl
    unfold goTrimSpaceL
    rw [show (c :: t) ++ [' '] = c :: (t ++ [' ']) from rfl, List.dropWhile_cons, hc]
    simp only [Bool.false_eq_true, if_false]
    rw [show c :: (t ++ [' ']) = (c :: t) ++ [' '] from rfl, List.reverse_append]
    rw [show ([' '] : List Char).reverse ++ (c :: t).reverse =
      ' ' :: (c :: t).reverse from rfl]
    rw [List.dropWhile_cons]
    rw [show goIsSpace ' ' = true from by decide]
    simp only [if_true]
    have hdrop : List.dropWhile goIsSpace ((c :: t).reverse) = (c :: t).reverse := by
      cases hrev : (c :: t).reverse with
      | nil => rfl
      | cons r rs =>
        rw [List.dropWhile_cons]
        have hr : goIsSpace r = false := by
          apply hlast
          rw [← List.head?_reverse, hrev]
          rfl
        rw [hr]
        simp
    rw [hdrop, List.reverse_reverse]

/-- Every rendered field of `CmdString` starts with a letter of its flag
name and — given that `ConfigPath` does not end in whitespace — ends in
a non-whitespace character. -/
theorem fieldsRendered_facts (o : OcrArgs)
    (h : ∀ ch, o.ConfigPath.data.getLast? = some ch → goIsSpace ch = false) :
    ∀ fld ∈ o.fieldsRendered,
      (∃ c t, fld = c :: t ∧ goIsSpace c = false) ∧
      (∀ ch, fld.getLast? = some ch → goIsSpace ch = false) := by
  intro fld hfld
  unfold OcrArgs.fieldsRendered at hfld
  rcases List.mem_append.1 hfld with h1 | h1
  swap
  · -- config_path part
    revert h1
    split
    · intro h1
      cases h1
    · rename_i hcfg
      intro h1
      rcases List.mem_cons.1 h1 with h1 | h1
      swap
      · cases h1
      subst h1
      constructor
      · exact ⟨'c', "onfig_path=".data ++ o.ConfigPath.data, rfl, by decide⟩
      · intro ch hch
        rw [List.getLast?_append] at hch
        have hdata : o.ConfigPath.data ≠ [] := by
          intro hcon
          exact hcfg (String.ext hcon)
        obtain ⟨x, hx⟩ : ∃ x, o.ConfigPath.data.getLast? = some x := by
          cases hS : o.ConfigPath.data.getLast? with
          | none => exact absurd (List.getLast?_eq_none_iff.mp hS) hdata
          | some x => exact ⟨x, rfl⟩
        rw [hx] at hch
        simp only [Option.or_some] at hch
        have hxc := Option.some.inj hch
        subst hxc
        exact h x hx
  rcases List.mem_append.1 h1 with h2 | h2
  swap
  · -- use_angle_cls part
    revert h2
    split
    · intro h2
      cases h2
    · rename_i b _heqb
      intro h2
      rcases List.mem_cons.1 h2 with h2 | h2
      swap
      · cases h2
      subst h2
      cases b with
      | false =>
        exact ⟨⟨'u', "se_angle_cls=0".data, rfl, by decide⟩,
          fun ch hch => by
            rw [show (boolFlag "use_angle_cls".data false).getLast? = some '0' from rfl] at hch
            cases hch
            decide⟩
      | true =>
        exact ⟨⟨'u', "se_angle_cls=1".data, rfl, by decide⟩,
          fun ch hch => by
            rw [show (boolFlag "use_angle_cls".data true).getLast? = some '1' from rfl] at hch
            cases hch
            decide⟩
  rcases List.mem_append.1 h2 with h3 | h3
  swap
  · -- limit_side_len part
    revert h3
    split
    · intro h3
      cases h3
    · rename_i n _heqn
      intro h3
      rcases List.mem_cons.1 h3 with h3 | h3
      swap
      · cases h3
      subst h3
      constructor
      · exact ⟨'l', "imit_side_len=".data ++ intDec n, rfl, by decide⟩
      · intro ch hch
        rw [List.getLast?_append] at hch
        obtain ⟨x, hx⟩ : ∃ x, (intDec n).getLast? = some x := by
          cases hS : (intDec n).getLast? with
          | none => exact absurd (List.getLast?_eq_none_iff.mp hS) (intDec_ne_nil n)
          | some x => exact ⟨x, rfl⟩
        rw [hx] at hch
        simp only [Option.or_some] at hch
        have hxc := Option.some.inj hch
        subst hxc
        have hxmem : x ∈ intDec n := List.mem_of_mem_getLast? (by rw [hx]; rfl)
        exact intDec_chars n x hxmem
  rcases List.mem_append.1 h3 with h4 | h4
  · -- cls part
    revert h4
    split
    · intro h4
      cases h4
    · rename_i b _heqb
      intro h4
      rcases List.mem_cons.1 h4 with h4 | h4
      swap
      · cases h4
      subst h4
      cases b with
      | false =>
        exact ⟨⟨'c', "ls=0".data, rfl, by decide⟩,
          fun ch hch => by
            rw [show (boolFlag "cls".data false).getLast? = some '0' from rfl] at hch
            cases hch
            decide⟩
      | true =>
        exact ⟨⟨'c', "ls=1".data, rfl, by decide⟩,
          fun ch hch => by
            rw [show (boolFlag "cls".data true).getLast? = some '1' from rfl] at hch
            cases hch
            decide⟩
  · -- enable_mkldnn part
    revert h4
    split
    · intro h4
      cases h4
    · rename_i b _heqb
      intro h4
      rcases List.mem_cons.1 h4 with h4 | h4
      swap
      · cases h4
      subst h4
      cases b with
      | false =>
        exact ⟨⟨'e', "nable_mkldnn=0".data, rfl, by decide⟩,
          fun ch hch => by
            rw [show (boolFlag "enable_mkldnn".data false).getLast? = some '0' from rfl] at hch
            cases hch
            decide⟩
      | true =>
        exact ⟨⟨'e', "nable_mkldnn=1".data, rfl, by decide⟩,
          fun ch hch => by
            rw [show (boolFlag "enable_mkldnn".data true).getLast? = some '1' from rfl] at hch
            cases hch
            decide⟩

/-- C9 counterexample: the claim says the rendered string contains each
non-default field rendered as `name=value`, space-joined with no
trailing whitespace; for `ConfigPath = "a "` the `TrimSpace` at the end
of `CmdString` also eats the trailing space of the value itself, so the
output differs from the space-join of the rendered fields. -/
theorem c9_counterexample :
    OcrArgs.CmdString ⟨none, none, none, none, "a "⟩ ≠
      ⟨sepJoin (OcrArgs.fieldsRendered ⟨none, none, none, none, "a "⟩)⟩ := by
  decide

/-- C9 amended: for every `OcrArgs` whose `ConfigPath` does not end in a
whitespace character, `CmdString` returns exactly the non-default
fields, each rendered as `name=value` with booleans rendered `1`/`0`,
joined by single spaces in declaration order with no leading or trailing
whitespace; if `ConfigPath` ends in whitespace, that trailing whitespace
of the final value is also trimmed away. -/
theorem c9_cmdString_joins_nondefault_fields (o : OcrArgs)
    (h : ∀ ch, o.ConfigPath.data.getLast? = some ch → goIsSpace ch = false) :
    o.CmdString = ⟨sepJoin o.fieldsRendered⟩ := by
  have hfacts := fieldsRendered_facts o h
  unfold OcrArgs.CmdString
  cases hf : o.fieldsRendered with
  | nil => rfl
  | cons f fs =>
    rw [hf] at hfacts
    rw [flatten_spaced_eq_sepJoin]
    have hwrap := goTrimSpaceL_wrap (sepJoin (f :: fs)) ?_ ?_
    · rw [hwrap]
    · intro c hc
      obtain ⟨X, hX⟩ := sepJoin_cons_exists f fs
      obtain ⟨⟨c0, t0, hft, hc0⟩, _⟩ := hfacts f (List.mem_cons_self _ _)
      rw [hX, hft] at hc
      cases hc
      exact hc0
    · apply sepJoin_getLast_prop
      · intro g hg
        obtain ⟨⟨c0, t0, hft, _⟩, _⟩ := hfacts g hg
        rw [hft]
        simp
      · intro g hg
        exact (hfacts g hg).2

/-- C9 witness: the non-default fields `Cls=true` and the Chinese config
path render space-joined in declaration order. -/
theorem c9_witness :
    (∀ ch, ("models/config_chinese.txt" : String).data.getLast? = some ch →
      goIsSpace ch = false) ∧
    OcrArgs.CmdString ⟨some true, none, none, none, "models/config_chinese.txt"⟩ =
      ⟨sepJoin (OcrArgs.fieldsRendered
        ⟨some true, none, none, none, "models/config_chinese.txt"⟩)⟩ ∧
    OcrArgs.CmdString ⟨some true, none, none, none, "models/config_chinese.txt"⟩ =
      "cls=1 config_path=models/config_chinese.txt" :=
  ⟨by decide,
   c9_cmdString_joins_nondefault_fields
     ⟨some true, none, none, none, "models/config_chinese.txt"⟩ (by decide),
   by decide⟩

end Paddleocr
